import Mathlib

/-!
# The pod create / watch / update / patch / delete example

A shallow embedding of `crud example/main.go`: the data the program handles
(pods, watch events, API errors), the remote API the program talks to (as an
explicit table of responses), and the program itself, written as pure
functions that return the outcome together with the trace of API calls.
-/

namespace CrudExample

/-! ## Data model -/

/-- The Go type `metav1.StatusReason`, a string. -/
abbrev StatusReason := String

/-- The constant `metav1.StatusReasonNotFound`. -/
def StatusReasonNotFound : StatusReason := "NotFound"

/-- The constant `metav1.StatusReasonConflict`. -/
def StatusReasonConflict : StatusReason := "Conflict"

/-- A non-nil Go `error` as the program can observe it: the reason that
`errors.ReasonForError` extracts from it, and its text. -/
structure APIError where
  reason : StatusReason
  message : String
  deriving DecidableEq, Repr

/-- The library test `errors.IsNotFound`. -/
def IsNotFound (e : APIError) : Bool := e.reason == StatusReasonNotFound

/-- The library test `errors.IsConflict`. -/
def IsConflict (e : APIError) : Bool := e.reason == StatusReasonConflict

/-- A `corev1.PodCondition`; both fields are strings in Go. -/
structure PodCondition where
  type : String
  status : String
  deriving DecidableEq, Repr

/-- The constant `corev1.PodReady`. -/
def PodReady : String := "Ready"

/-- The constant `corev1.ConditionTrue`. -/
def ConditionTrue : String := "True"

/-- A `corev1.Container` with the fields the program sets. -/
structure Container where
  name : String
  image : String
  readinessProbeHTTPGetPort : Option Int
  deriving DecidableEq, Repr

/-- A `corev1.PodSpec` with the fields the program sets. -/
structure PodSpec where
  containers : List Container
  terminationGracePeriodSeconds : Option Int
  deriving DecidableEq, Repr

/-- A Go `map[string]string` as an association list; the first entry of a key is
its value. -/
abbrev StringMap := List (String × String)

/-- The Go map read `m[k]`, with `none` for an absent key. -/
def mapGet (m : StringMap) (k : String) : Option String :=
  (m.find? (fun kv => kv.1 == k)).map Prod.snd

/-- The Go map write `m[k] = v`. -/
def mapSet (m : StringMap) (k v : String) : StringMap :=
  (k, v) :: m.filter (fun kv => !(kv.1 == k))

/-- A `*corev1.Pod`: name, version token (`metadata.resourceVersion`),
annotations (`none` is the nil map), spec and status conditions. -/
structure Pod where
  name : String
  resourceVersion : String
  annotations : Option StringMap
  spec : PodSpec
  conditions : List PodCondition
  deriving DecidableEq, Repr

/-- The zero value `corev1.Pod{}`. -/
def Pod.zero : Pod :=
  { name := "", resourceVersion := "", annotations := none,
    spec := { containers := [], terminationGracePeriodSeconds := none },
    conditions := [] }

/-- The Go type `watch.EventType`, a string. -/
abbrev EventType := String

/-- The constant `watch.Added`. -/
def Added : EventType := "ADDED"

/-- The constant `watch.Modified`. -/
def Modified : EventType := "MODIFIED"

/-- The constant `watch.Deleted`. -/
def Deleted : EventType := "DELETED"

/-- The constant `watch.Error`. -/
def Error : EventType := "ERROR"

/-- A `watch.Event` of a pod watch: its type and the pod snapshot it carries. -/
structure Event where
  type : EventType
  object : Pod
  deriving DecidableEq, Repr

/-- The value handed to Go's `panic`: an `error` interface value (possibly nil)
or a string. -/
inductive PanicValue where
  | err (e : Option APIError)
  | msg (s : String)
  deriving DecidableEq, Repr

/-- How a piece of the program ends: it runs to its end, or it panics. -/
inductive Outcome where
  | completed
  | panicked (v : PanicValue)
  deriving DecidableEq, Repr

/-! ## The watch loop (main.go lines 79-96) -/

/-- Modelled from the spec: the watch subscription of the client library, which
is library code outside the repository. A stream of events with a Stop/cancel
operation. The record keeps what the program does to it: whether the program
has called `Stop`, and how often. What `Stop` does to the result channel, and
what the library does by itself, is not fixed here: the events the channel
delivers are an input of the loop. -/
structure Watcher where
  stopped : Bool
  stopCalls : Nat
  deriving DecidableEq, Repr

/-- The watcher a successful `Watch` call returns. -/
def Watcher.fresh : Watcher := { stopped := false, stopCalls := 0 }

/-- The call `watcher.Stop()` made by the program. -/
def Watcher.Stop (w : Watcher) : Watcher :=
  { stopped := true, stopCalls := w.stopCalls + 1 }

/-- The test of lines 87-88: `Type == PodReady` and `Status == ConditionTrue`. -/
def isReadyCond (c : PodCondition) : Bool :=
  c.type == PodReady && c.status == ConditionTrue

/-- The inner loop of lines 86-91: every condition that passes the test calls
`watcher.Stop()`. -/
def stopOnReady (w : Watcher) (conds : List PodCondition) : Watcher :=
  conds.foldl (fun w c => if isReadyCond c then w.Stop else w) w

/-- Whether some status condition of the pod is Ready with status True. -/
def hasReady (p : Pod) : Bool := p.conditions.any isReadyCond

/-- What the watch loop leaves behind: how it ended, the value of the variable
`pod`, the watcher, the number of events received from the channel, and the
delivered events it did not receive. -/
structure LoopResult where
  outcome : Outcome
  pod : Pod
  watcher : Watcher
  consumed : Nat
  remaining : List Event
  deriving DecidableEq, Repr

/-- The loop `for event := range watcher.ResultChan()` of lines 79-96. The
first argument lists the events the result channel delivers, in order, until
it is closed, whatever closes it: the end of the stream, or the library after
a call of `Stop`, in which case the events delivered after that call are those
that were in flight. Then come the watcher, the current value of `pod` and the
number of events received so far. The loop has no exit of its own: it ends
when the channel delivers nothing more, or in a panic. A `Modified` event
replaces `pod` and runs the inner loop; any other event type panics. -/
def watchLoop : List Event → Watcher → Pod → Nat → LoopResult
  | [], w, pod, n =>
      { outcome := .completed, pod := pod, watcher := w, consumed := n, remaining := [] }
  | event :: rest, w, pod, n =>
      if event.type = Modified then
        watchLoop rest (stopOnReady w event.object.conditions) event.object (n + 1)
      else
        { outcome := .panicked (.msg ("unexpected event type " ++ event.type)),
          pod := pod, watcher := w, consumed := n + 1, remaining := rest }

/-! ## The remote API and the trace of calls -/

/-- What `Create`, `Get`, `Update` and `Patch` of the generated client return:
a pod pointer, never nil, and an error, nil on success. -/
abbrev PodResult := Pod × Option APIError

/-- The remote API as the program sees it in one run: the answer to each call
the program can make. `get k name` answers the Get number `k` (from zero),
addressed to `name`; `update k` answers the Update number `k`, `delete k` the
Delete number `k`; `watch` gives the events the result channel of the watch
delivers until it is closed, and the error of opening the watch. Every
behaviour of a store in one run is such a table. -/
structure Store where
  create : PodResult
  watch : List Event × Option APIError
  get : Nat → String → PodResult
  update : Nat → PodResult
  patch : PodResult
  delete : Nat → Option APIError

/-- One API call of the program, with its arguments and what it returned. -/
inductive Call where
  | create (arg : Pod) (res : PodResult)
  | watch (name resourceVersion : String) (err : Option APIError)
  | get (name : String) (res : PodResult)
  | update (arg : Pod) (res : PodResult)
  | patch (name patchType data : String) (res : PodResult)
  | delete (name : String) (err : Option APIError)
  deriving DecidableEq, Repr

/-- The kind of an API call. -/
inductive Op where
  | create | watch | get | update | patch | delete
  deriving DecidableEq, Repr

/-- The kind of a recorded call. -/
def Call.op : Call → Op
  | .create _ _ => .create
  | .watch _ _ _ => .watch
  | .get _ _ => .get
  | .update _ _ => .update
  | .patch _ _ _ _ => .patch
  | .delete _ _ => .delete

/-- The name a recorded Get, Patch or Delete is addressed to. -/
def Call.target : Call → Option String
  | .get n _ => some n
  | .patch n _ _ _ => some n
  | .delete n _ => some n
  | _ => none

/-- The program's variables during the update step: the variable `pod`, the
calls made so far, and how many Get and Update calls were made. -/
structure ProgState where
  pod : Pod
  calls : List Call
  gets : Nat
  updates : Nat
  deriving DecidableEq, Repr

/-- The result of a run: how it ended and the calls it made, in order. -/
structure Run where
  outcome : Outcome
  calls : List Call
  deriving DecidableEq, Repr

/-! ## The program (main.go lines 42-143) -/

/-- The pod literal passed to `Create` (lines 46-66). -/
def helloPod : Pod :=
  { name := "hello-openshift", resourceVersion := "", annotations := none,
    spec :=
      { containers :=
          [{ name := "hello-openshift", image := "openshift/hello-openshift",
             readinessProbeHTTPGetPort := some 8080 }],
        terminationGracePeriodSeconds := some 0 },
    conditions := [] }

/-- Lines 110-113: a nil annotation map is replaced by an empty one, then the
key "testing" is set to "true". -/
def annotate (p : Pod) : Pod :=
  { p with annotations := some (mapSet (p.annotations.getD []) "testing" "true") }

/-- The closure passed to `retry.RetryOnConflict` (lines 102-118): Get by
`pod.Name`, store the result in `pod`, return on error; annotate; Update, store
the result in `pod` and return its error. -/
def updateAttempt (st : Store) (s : ProgState) : Option APIError × ProgState :=
  let res := st.get s.gets s.pod.name
  let s1 : ProgState :=
    { pod := res.1, calls := s.calls ++ [Call.get s.pod.name res],
      gets := s.gets + 1, updates := s.updates }
  match res.2 with
  | some e => (some e, s1)
  | none =>
    let arg := annotate s1.pod
    let ures := st.update s1.updates
    (ures.2,
      { pod := ures.1, calls := s1.calls ++ [Call.update arg ures],
        gets := s1.gets, updates := s1.updates + 1 })

/-- Modelled from the spec: the loop inside the library routine
`retry.RetryOnConflict`, library code outside the repository. At most `steps` attempts; a
nil error ends the loop with success, a version-conflict error is remembered
and the loop goes on, any other error ends the loop with that error; when the
attempts run out the last conflict error is returned. The waiting between
attempts is not modelled. -/
def retryLoop {σ : Type} (fn : σ → Option APIError × σ) :
    Nat → Option APIError → σ → Option APIError × σ
  | 0, lastConflictErr, s => (lastConflictErr, s)
  | k + 1, _, s =>
    match fn s with
    | (none, s1) => (none, s1)
    | (some e, s1) =>
      if IsConflict e then retryLoop fn k (some e) s1 else (some e, s1)

/-- Modelled from the spec: `retry.RetryOnConflict` with a policy of `steps`
attempts. -/
def RetryOnConflict {σ : Type} (steps : Nat) (fn : σ → Option APIError × σ) (s : σ) :
    Option APIError × σ :=
  retryLoop fn steps none s

/-- The constant `types.JSONPatchType`. -/
def JSONPatchType : String := "application/json-patch+json"

/-- The patch document of line 125. -/
def patch : String :=
  "[\x7b\"op\":\"remove\",\"path\":\"/metadata/annotations/testing\"\x7d]"

/-- Lines 132-143: Delete, panic on error; Delete again, panic unless the error
is non-nil and of the not-found kind. -/
def deleteTwice (st : Store) (pod : Pod) (calls : List Call) : Run :=
  let calls1 := calls ++ [Call.delete pod.name (st.delete 0)]
  match st.delete 0 with
  | some e => { outcome := .panicked (.err (some e)), calls := calls1 }
  | none =>
    let calls2 := calls1 ++ [Call.delete pod.name (st.delete 1)]
    match st.delete 1 with
    | none => { outcome := .panicked (.err none), calls := calls2 }
    | some e =>
      if !IsNotFound e then { outcome := .panicked (.err (some e)), calls := calls2 }
      else { outcome := .completed, calls := calls2 }

/-- Lines 123-143: Patch by `pod.Name`, store the result in `pod`, panic on
error; then the two deletes. -/
def patchThenDelete (st : Store) (pod : Pod) (calls : List Call) : Run :=
  let calls1 := calls ++ [Call.patch pod.name JSONPatchType patch st.patch]
  match st.patch.2 with
  | some e => { outcome := .panicked (.err (some e)), calls := calls1 }
  | none => deleteTwice st st.patch.1 calls1

/-- Lines 98-143: the update with retry, panic on its error; then patch and
deletes. -/
def updateThenRest (st : Store) (steps : Nat) (pod : Pod) (calls : List Call) : Run :=
  let r := RetryOnConflict steps (updateAttempt st)
    { pod := pod, calls := calls, gets := 0, updates := 0 }
  match r.1 with
  | some e => { outcome := .panicked (.err (some e)), calls := r.2.calls }
  | none => patchThenDelete st r.2.pod r.2.calls

/-- Lines 42-143, the workflow on a constructed client: Create, panic on error;
open the watch on the created pod, panic on error; run the watch loop; then
the update, patch and delete steps. `steps` is the attempt cap of the retry
policy `retry.DefaultRetry`. -/
def workflow (st : Store) (steps : Nat) : Run :=
  let calls0 := [Call.create helloPod st.create]
  match st.create.2 with
  | some e => { outcome := .panicked (.err (some e)), calls := calls0 }
  | none =>
    let pod := st.create.1
    let calls1 := calls0 ++ [Call.watch pod.name pod.resourceVersion st.watch.2]
    match st.watch.2 with
    | some e => { outcome := .panicked (.err (some e)), calls := calls1 }
    | none =>
      let r := watchLoop st.watch.1 Watcher.fresh pod 0
      match r.outcome with
      | .panicked v => { outcome := .panicked v, calls := calls1 }
      | .completed => updateThenRest st steps r.pod calls1

/-- The outcome of loading the configuration and building the client (lines
16-40): the error, if any, of `kubeconfig.Namespace`, of
`kubeconfig.ClientConfig` and of `corev1client.NewForConfig`. -/
structure Boot where
  namespaceErr : Option APIError
  clientConfigErr : Option APIError
  newForConfigErr : Option APIError

/-- The function `main`: each configuration step panics on its error; then the
workflow runs. -/
def main (b : Boot) (st : Store) (steps : Nat) : Run :=
  match b.namespaceErr with
  | some e => { outcome := .panicked (.err (some e)), calls := [] }
  | none =>
    match b.clientConfigErr with
    | some e => { outcome := .panicked (.err (some e)), calls := [] }
    | none =>
      match b.newForConfigErr with
      | some e => { outcome := .panicked (.err (some e)), calls := [] }
      | none => workflow st steps

/-! ## Reading the trace and the state -/

/-- The error a recorded call returned. -/
def Call.err : Call → Option APIError
  | .create _ res => res.2
  | .watch _ _ e => e
  | .get _ res => res.2
  | .update _ res => res.2
  | .patch _ _ _ res => res.2
  | .delete _ e => e

/-- The pod a recorded call returned, for the calls that return one. -/
def Call.returned : Call → Option Pod
  | .create _ res => some res.1
  | .get _ res => some res.1
  | .update _ res => some res.1
  | .patch _ _ _ res => some res.1
  | _ => none

/-- When call `c2` comes right after call `c1` in the update step: a Get comes
after a call that failed with a version conflict and is addressed to the name
of the pod that call returned; an Update comes after a successful Get and
submits the pod that Get returned, annotated. -/
def Follows (c1 c2 : Call) : Prop :=
  match c2 with
  | .get n _ =>
      (∃ e, c1.err = some e ∧ IsConflict e = true) ∧ c1.returned.map Pod.name = some n
  | .update arg _ => ∃ m g, c1 = .get m (g, none) ∧ arg = annotate g
  | _ => False

/-- A trace of the update step that starts after `prev`, or, when `prev` is
`none`, starts the step with a Get addressed to `name0`. -/
def Traced (name0 : String) : Option Call → List Call → Prop
  | _, [] => True
  | none, c :: rest => (∃ res, c = .get name0 res) ∧ Traced name0 (some c) rest
  | some p, c :: rest => Follows p c ∧ Traced name0 (some c) rest

/-- The value of `pod` after a run of `Modified` events: the snapshot of the
last one, or the old value when there was none. -/
def lastObject (pod : Pod) (evs : List Event) : Pod :=
  evs.foldl (fun _ e => e.object) pod

/-- The watcher after the inner loop has run on each of a run of `Modified`
events. -/
def stopAll (w : Watcher) (evs : List Event) : Watcher :=
  evs.foldl (fun w e => stopOnReady w e.object.conditions) w

/-- The program's variables after a Get of the update step. -/
def afterGet (st : Store) (s : ProgState) : ProgState :=
  { pod := (st.get s.gets s.pod.name).1,
    calls := s.calls ++ [Call.get s.pod.name (st.get s.gets s.pod.name)],
    gets := s.gets + 1, updates := s.updates }

/-- The program's variables after a Get and an Update of the update step. -/
def afterUpdate (st : Store) (s : ProgState) : ProgState :=
  { pod := (st.update s.updates).1,
    calls := s.calls ++ [Call.get s.pod.name (st.get s.gets s.pod.name)] ++
      [Call.update (annotate (st.get s.gets s.pod.name).1) (st.update s.updates)],
    gets := s.gets + 1, updates := s.updates + 1 }

/-- The trace up to the opening of the watch. -/
def openingCalls (st : Store) : List Call :=
  [Call.create helloPod st.create] ++
    [Call.watch st.create.1.name st.create.1.resourceVersion st.watch.2]

/-! ## The patch document (main.go line 125) -/

/-- A JSON value. -/
inductive Json where
  | null
  | bool (b : Bool)
  | num (n : Int)
  | str (s : String)
  | arr (items : List Json)
  | obj (members : List (String × Json))

/-- One operation of a patch document: its `op`, its `path`, and its `value`
member when it has one. -/
structure PatchOp where
  op : String
  path : String
  value : Option String
  deriving DecidableEq, Repr

/-- The double quote character. -/
def chQuote : Char := Char.ofNat 34

/-- The backslash character. -/
def chBackslash : Char := Char.ofNat 92

/-- Reads a JSON string after its opening quote: the text up to the closing
quote, and what follows it. A string with an escape is not accepted. -/
def readString : List Char → Option (List Char × List Char)
  | [] => none
  | c :: cs =>
    if c = chQuote then some ([], cs)
    else if c = chBackslash then none
    else
      match readString cs with
      | none => none
      | some (text, rest) => some (c :: text, rest)

/-- Reads one member `"key":"value"` of an object. -/
def readMember (cs : List Char) : Option ((String × String) × List Char) :=
  match cs with
  | c :: cs1 =>
    if c = chQuote then
      match readString cs1 with
      | some (key, c2 :: c3 :: cs2) =>
        if c2 = Char.ofNat 58 ∧ c3 = chQuote then
          match readString cs2 with
          | some (val, rest) => some ((String.mk key, String.mk val), rest)
          | none => none
        else none
      | _ => none
    else none
  | [] => none

/-- Reads the members of an object after its opening brace, up to and
including the closing brace. -/
def readMembers : Nat → List Char → Option (List (String × String) × List Char)
  | 0, _ => none
  | fuel + 1, cs =>
    match readMember cs with
    | none => none
    | some (m, c :: rest) =>
      if c = Char.ofNat 125 then some ([m], rest)
      else if c = Char.ofNat 44 then
        match readMembers fuel rest with
        | none => none
        | some (ms, rest1) => some (m :: ms, rest1)
      else none
    | some (_, []) => none

/-- Reads the objects of an array after its opening bracket, up to and
including the closing bracket. -/
def readObjects : Nat → List Char → Option (List (List (String × String)) × List Char)
  | 0, _ => none
  | fuel + 1, cs =>
    match cs with
    | c :: cs1 =>
      if c = Char.ofNat 123 then
        match readMembers cs1.length cs1 with
        | some (o, d :: rest) =>
          if d = Char.ofNat 93 then some ([o], rest)
          else if d = Char.ofNat 44 then
            match readObjects fuel rest with
            | none => none
            | some (os, rest1) => some (o :: os, rest1)
          else none
        | _ => none
      else none
    | [] => none

/-- The operation an object of a patch document stands for; `op` and `path`
are required. -/
def toPatchOp (o : List (String × String)) : Option PatchOp :=
  match mapGet o "op", mapGet o "path" with
  | some op, some path => some { op := op, path := path, value := mapGet o "value" }
  | _, _ => none

/-- Modelled from the spec: the reading of a patch document, which the store
does, outside the repository. A JSON-Patch-style list of operations, each an
object with `op`, `path` and possibly `value`; the reader accepts documents
written without white space whose members are strings without escapes. -/
def decodePatch (data : String) : Option (List PatchOp) :=
  match data.toList with
  | c :: cs =>
    if c = Char.ofNat 91 then
      match readObjects cs.length cs with
      | some (objs, []) => objs.mapM toPatchOp
      | _ => none
    else none
  | [] => none

/-- Splits the text after a slash into the reference tokens of a path. -/
def splitTokens : List Char → List Char → List (List Char)
  | acc, [] => [acc.reverse]
  | acc, c :: cs =>
    if c = Char.ofNat 47 then acc.reverse :: splitTokens [] cs
    else splitTokens (c :: acc) cs

/-- The reference tokens of a path: the empty path addresses the whole
document, any other path starts with a slash. The escapes of the tilde
character are not modelled. -/
def pathTokens (path : String) : Option (List String) :=
  match path.toList with
  | [] => some []
  | c :: cs =>
    if c = Char.ofNat 47 then some ((splitTokens [] cs).map String.mk) else none

/-- The member `k` of an object. -/
def memberGet (ms : List (String × Json)) (k : String) : Option Json :=
  (ms.find? (fun kv => kv.1 == k)).map Prod.snd

/-- The object with member `k` replaced by `v`. -/
def memberPut (ms : List (String × Json)) (k : String) (v : Json) : List (String × Json) :=
  ms.map (fun kv => if kv.1 == k then (kv.1, v) else kv)

/-- The object without member `k`. -/
def memberErase (ms : List (String × Json)) (k : String) : List (String × Json) :=
  ms.filter (fun kv => !(kv.1 == k))

/-- Modelled from the spec: the `remove` operation of the patch format, applied
by the store, outside the repository. The path must exist for the operation to
succeed: every token but the last names a member of an object that is there,
and the last token names a member that is there and is erased. Elements of
arrays are not modelled, an operation that addresses one fails. -/
def removeAt : List String → Json → Option Json
  | [], _ => none
  | [k], .obj ms =>
    match memberGet ms k with
    | none => none
    | some _ => some (.obj (memberErase ms k))
  | k :: t :: ts, .obj ms =>
    match memberGet ms k with
    | none => none
    | some v =>
      match removeAt (t :: ts) v with
      | none => none
      | some v1 => some (.obj (memberPut ms k v1))
  | _ :: _, _ => none

/-- Modelled from the spec: one operation applied to a document. Of the
operations of the format only `remove` is modelled, the one the program
emits; any other operation is rejected. -/
def applyOp (o : PatchOp) (doc : Json) : Option Json :=
  if o.op = "remove" then
    match pathTokens o.path with
    | none => none
    | some ts => removeAt ts doc
  else none

/-- Modelled from the spec: the operations of a patch applied in order; the
patch fails as a whole, and yields no document, when one of them fails. -/
def applyOps : List PatchOp → Json → Option Json
  | [], doc => some doc
  | o :: os, doc =>
    match applyOp o doc with
    | none => none
    | some doc1 => applyOps os doc1

/-- Modelled from the spec: what the store does with a patch document and the
stored document of an instance. -/
def applyPatch (data : String) (doc : Json) : Option Json :=
  match decodePatch data with
  | none => none
  | some ops => applyOps ops doc

/-- The Go map without the key `k`. -/
def mapErase (m : StringMap) (k : String) : StringMap :=
  m.filter (fun kv => !(kv.1 == k))

/-- A string map as a JSON object. -/
def stringMapJson (m : StringMap) : Json :=
  .obj (m.map (fun kv => (kv.1, Json.str kv.2)))

/-- An optional integer as JSON. -/
def optIntJson : Option Int → Json
  | none => .null
  | some n => .num n

/-- The stored document of a pod: `metadata` with name, resourceVersion and,
when the map is not nil, annotations; `spec`; `status` with the conditions. -/
def Pod.toJson (p : Pod) : Json :=
  .obj
    [("metadata", .obj
        ([("name", .str p.name), ("resourceVersion", .str p.resourceVersion)] ++
          (match p.annotations with
           | none => []
           | some m => [("annotations", stringMapJson m)]))),
     ("spec", .obj
        [("containers", .arr (p.spec.containers.map (fun c =>
            Json.obj [("name", .str c.name), ("image", .str c.image),
              ("readinessProbeHTTPGetPort", optIntJson c.readinessProbeHTTPGetPort)]))),
         ("terminationGracePeriodSeconds", optIntJson p.spec.terminationGracePeriodSeconds)]),
     ("status", .obj
        [("conditions", .arr (p.conditions.map (fun c =>
            Json.obj [("type", .str c.type), ("status", .str c.status)])))])]

/-- The `metadata` member of the stored document of a pod with annotations. -/
def metadataJson (p : Pod) (m : StringMap) : Json :=
  .obj [("name", .str p.name), ("resourceVersion", .str p.resourceVersion),
    ("annotations", stringMapJson m)]

/-! ## Inputs used as examples -/

/-- A snapshot of the created pod whose Ready condition is False. -/
def notReadyPod : Pod :=
  { helloPod with resourceVersion := "101", conditions := [⟨PodReady, "False"⟩] }

/-- A snapshot of the created pod whose Ready condition is True. -/
def readyPod : Pod :=
  { helloPod with resourceVersion := "102", conditions := [⟨PodReady, ConditionTrue⟩] }

/-- A version-conflict error. -/
def conflictErr : APIError :=
  { reason := StatusReasonConflict, message := "the object has been modified" }

/-- A not-found error. -/
def notFoundErr : APIError :=
  { reason := StatusReasonNotFound, message := "pods \"hello-openshift\" not found" }

/-- The scripted stream: not ready, then ready, after which the channel is
closed. -/
def scriptedEvents : List Event :=
  [⟨Modified, notReadyPod⟩, ⟨Modified, readyPod⟩]

/-- A store that answers every call with success and the ready pod, delivers
the given events, and answers the second Delete with not-found. -/
def storeWith (evs : List Event) : Store :=
  { create := (helloPod, none), watch := (evs, none),
    get := fun _ _ => (readyPod, none),
    update := fun _ => (annotate readyPod, none),
    patch := (readyPod, none),
    delete := fun k => if k = 0 then none else some notFoundErr }

/-- The error of a Get with an empty name, which the client refuses to send. -/
def emptyNameErr : APIError := { reason := "", message := "resource name may not be empty" }

/-- The pod the server returns for the created instance. -/
def createdPod : Pod := { helloPod with resourceVersion := "100" }

/-- A store whose first Update fails with a conflict, returning the zero pod
next to the error as the generated client does, and which answers a Get by
name: the Get of the retry, addressed to the empty name, fails. -/
def conflictStore : Store :=
  { create := (createdPod, none),
    watch := ([⟨Modified, notReadyPod⟩, ⟨Modified, readyPod⟩], none),
    get := fun k _ => if k = 0 then (readyPod, none) else (Pod.zero, some emptyNameErr),
    update := fun k => if k = 0 then (Pod.zero, some conflictErr) else (annotate readyPod, none),
    patch := (readyPod, none),
    delete := fun k => if k = 0 then none else some notFoundErr }

/-- The store of the end-to-end scenario, holding the created instance under
its name. Every Get addressed to "hello-openshift" succeeds; a Get addressed
to the empty name is refused by the client, and one addressed to another name
finds nothing. The first Update fails with a conflict, returning the zero pod
next to the error as the generated client does; a second Update succeeds;
Patch succeeds; the first Delete succeeds and the second fails with
not-found. -/
def endToEndStore : Store :=
  { create := (createdPod, none),
    watch := ([⟨Modified, notReadyPod⟩, ⟨Modified, readyPod⟩], none),
    get := fun _ name =>
      if name = "hello-openshift" then (readyPod, none)
      else if name = "" then (Pod.zero, some emptyNameErr)
      else (Pod.zero, some notFoundErr),
    update := fun k => if k = 0 then (Pod.zero, some conflictErr) else (annotate readyPod, none),
    patch := ({ readyPod with resourceVersion := "104" }, none),
    delete := fun k => if k = 0 then none else some notFoundErr }

/-! ## Facts about the watch loop -/

theorem stopOnReady_stopped (conds : List PodCondition) (w : Watcher) :
    (stopOnReady w conds).stopped = (w.stopped || conds.any isReadyCond) := by
  induction conds generalizing w with
  | nil => simp [stopOnReady]
  | cons c cs ih =>
    have h := ih (if isReadyCond c then w.Stop else w)
    simp only [stopOnReady, List.foldl_cons, List.any_cons] at h ⊢
    rw [h]
    cases hc : isReadyCond c <;> simp [Watcher.Stop]

theorem stopOnReady_of_not_ready (conds : List PodCondition) (w : Watcher)
    (h : conds.any isReadyCond = false) : stopOnReady w conds = w := by
  induction conds generalizing w with
  | nil => rfl
  | cons c cs ih =>
    simp only [List.any_cons, Bool.or_eq_false_iff] at h
    simp only [stopOnReady, List.foldl_cons, h.1]
    exact ih w h.2

theorem stopAll_stopped (evs : List Event) (w : Watcher) :
    (stopAll w evs).stopped = (w.stopped || evs.any (fun e => hasReady e.object)) := by
  induction evs generalizing w with
  | nil => simp [stopAll]
  | cons e es ih =>
    have h := ih (stopOnReady w e.object.conditions)
    simp only [stopAll, List.foldl_cons, List.any_cons] at h ⊢
    rw [h, stopOnReady_stopped, hasReady, Bool.or_assoc]

theorem stopAll_of_not_ready (evs : List Event) (w : Watcher)
    (h : ∀ x ∈ evs, hasReady x.object = false) : stopAll w evs = w := by
  induction evs generalizing w with
  | nil => rfl
  | cons e es ih =>
    have he : stopOnReady w e.object.conditions = w :=
      stopOnReady_of_not_ready _ _ (h e (List.mem_cons_self _ _))
    simp only [stopAll, List.foldl_cons, he]
    exact ih w (fun x hx => h x (List.mem_cons_of_mem _ hx))

/-- A run of `Modified` events is received whole: each replaces `pod` and runs
the inner loop, and the loop goes on with what follows. -/
theorem watchLoop_through (pre rest : List Event) (w : Watcher) (pod : Pod) (n : Nat)
    (hpre : ∀ x ∈ pre, x.type = Modified) :
    watchLoop (pre ++ rest) w pod n =
      watchLoop rest (stopAll w pre) (lastObject pod pre) (n + pre.length) := by
  induction pre generalizing w pod n with
  | nil => rfl
  | cons e es ih =>
    have he := hpre e (List.mem_cons_self _ _)
    have hes : ∀ x ∈ es, x.type = Modified := fun x hx => hpre x (List.mem_cons_of_mem _ hx)
    rw [List.cons_append, watchLoop]
    simp only [he, if_true]
    rw [ih _ _ _ hes]
    simp [lastObject, stopAll, Nat.add_assoc, Nat.add_comm 1]

/-- The loop on events that are all `Modified`: it ends when the channel
delivers nothing more. -/
theorem watchLoop_all_modified (evs : List Event) (w : Watcher) (pod : Pod) (n : Nat)
    (hall : ∀ x ∈ evs, x.type = Modified) :
    watchLoop evs w pod n =
      { outcome := .completed, pod := lastObject pod evs, watcher := stopAll w evs,
        consumed := n + evs.length, remaining := [] } := by
  have h := watchLoop_through evs [] w pod n hall
  simpa [watchLoop] using h

/-- The loop at the first event that is not `Modified`: it panics there. -/
theorem watchLoop_at_unexpected (pre post : List Event) (e : Event) (w : Watcher) (pod : Pod)
    (n : Nat) (hpre : ∀ x ∈ pre, x.type = Modified) (hty : e.type ≠ Modified) :
    watchLoop (pre ++ e :: post) w pod n =
      { outcome := .panicked (.msg ("unexpected event type " ++ e.type)),
        pod := lastObject pod pre, watcher := stopAll w pre,
        consumed := n + pre.length + 1, remaining := post } := by
  rw [watchLoop_through pre _ w pod n hpre]
  simp [watchLoop, hty]

/-- Every delivered sequence is all `Modified`, or has a first event that is
not. -/
theorem all_modified_or_split (evs : List Event) :
    (∀ x ∈ evs, x.type = Modified) ∨
      ∃ pre e post, evs = pre ++ e :: post ∧ (∀ x ∈ pre, x.type = Modified) ∧
        e.type ≠ Modified := by
  induction evs with
  | nil => left; simp
  | cons a as ih =>
    by_cases ha : a.type = Modified
    · rcases ih with h | ⟨pre, e, post, heq, hpre, he⟩
      · left
        intro x hx
        rcases List.mem_cons.1 hx with rfl | hx
        · exact ha
        · exact h x hx
      · right
        refine ⟨a :: pre, e, post, by simp [heq], ?_, he⟩
        intro x hx
        rcases List.mem_cons.1 hx with rfl | hx
        · exact ha
        · exact hpre x hx
    · right
      exact ⟨[], a, as, rfl, by simp, ha⟩

theorem lastObject_append_one (pod : Pod) (pre : List Event) (e : Event) :
    lastObject pod (pre ++ [e]) = e.object := by
  simp [lastObject, List.foldl_append]

theorem any_ready_of_mem (evs : List Event) (x : Event) (hx : x ∈ evs)
    (hr : hasReady x.object = true) : evs.any (fun e => hasReady e.object) = true :=
  List.any_eq_true.2 ⟨x, hx, hr⟩

theorem mem_ready_of_any (evs : List Event) (h : evs.any (fun e => hasReady e.object) = true) :
    ∃ x ∈ evs, hasReady x.object = true :=
  List.any_eq_true.1 h

theorem take_through (pre post : List Event) (e : Event) :
    (pre ++ e :: post).take (pre.length + 1) = pre ++ [e] := by
  induction pre with
  | nil => simp
  | cons a as ih => simp [ih]

/-- The first event that is not `Modified`, at or before a given one. -/
theorem first_unexpected (evs : List Event) (i : Nat) (e : Event) (hi : evs[i]? = some e)
    (hty : e.type ≠ Modified) :
    ∃ pre e1 post, evs = pre ++ e1 :: post ∧ pre.length ≤ i ∧ e1.type ≠ Modified ∧
      ∀ x ∈ pre, x.type = Modified := by
  induction evs generalizing i with
  | nil => simp at hi
  | cons a as ih =>
    by_cases ha : a.type = Modified
    · cases i with
      | zero =>
        simp at hi
        rw [hi] at ha
        exact absurd ha hty
      | succ k =>
        simp only [List.getElem?_cons_succ] at hi
        obtain ⟨pre, e1, post, heq, hlen, he1, hpre⟩ := ih k hi
        refine ⟨a :: pre, e1, post, by simp [heq], by simpa using hlen, he1, ?_⟩
        intro x hx
        rcases List.mem_cons.1 hx with rfl | hx
        · exact ha
        · exact hpre x hx
    · exact ⟨[], a, as, rfl, Nat.zero_le _, ha, by simp⟩

theorem index_of_mem_append_left (pre rest : List Event) (x : Event) (h : x ∈ pre) :
    ∃ j, j < pre.length ∧ (pre ++ rest)[j]? = some x := by
  obtain ⟨j, hj, hx⟩ := List.getElem_of_mem h
  refine ⟨j, hj, ?_⟩
  rw [List.getElem?_append_left hj, List.getElem?_eq_getElem hj, hx]

/-- C2: when the watch delivers an event that is not Modified at an index `i`,
and no event before index `i` is a Modified event with a Ready condition of
status True, the workflow panics at the first event that is not Modified, at
an index `k` of at most `i`, after receiving `k + 1` events; the calls it made
are exactly the Create and the Watch, so no Get, Update, Patch or Delete. -/
theorem workflow_aborts_on_unexpected_event (st : Store) (steps i : Nat) (e : Event)
    (hcreate : st.create.2 = none) (hwatch : st.watch.2 = none)
    (hi : st.watch.1[i]? = some e) (hty : e.type ≠ Modified)
    (hbefore : ∀ j x, j < i → st.watch.1[j]? = some x →
      ¬ (x.type = Modified ∧ hasReady x.object = true)) :
    ∃ k e1, k ≤ i ∧ st.watch.1[k]? = some e1 ∧ e1.type ≠ Modified ∧
      (∀ j x, j < k → st.watch.1[j]? = some x → x.type = Modified) ∧
      (watchLoop st.watch.1 Watcher.fresh st.create.1 0).consumed = k + 1 ∧
      workflow st steps =
        { outcome := .panicked (.msg ("unexpected event type " ++ e1.type)),
          calls := [Call.create helloPod st.create,
            Call.watch st.create.1.name st.create.1.resourceVersion none] } := by
  have _ := hbefore
  obtain ⟨pre, e1, post, heq, hlen, he1, hpre⟩ := first_unexpected st.watch.1 i e hi hty
  have hrun := watchLoop_at_unexpected pre post e1 Watcher.fresh st.create.1 0 hpre he1
  rw [← heq] at hrun
  refine ⟨pre.length, e1, hlen, ?_, he1, ?_, ?_, ?_⟩
  · rw [heq, List.getElem?_append_right (Nat.le_refl _)]; simp
  · intro j x hj hx
    rw [heq, List.getElem?_append_left hj] at hx
    exact hpre x (List.getElem?_mem hx)
  · rw [hrun]; simp
  · simp [workflow, hcreate, hwatch, hrun]

/-- C2, at a stream whose first event is an Added event. -/
theorem workflow_aborts_on_unexpected_event_witness :
    ∃ k e1, k ≤ 0 ∧ (storeWith [⟨Added, helloPod⟩, ⟨Modified, readyPod⟩]).watch.1[k]? = some e1 ∧
      e1.type ≠ Modified ∧
      (∀ j x, j < k → (storeWith [⟨Added, helloPod⟩, ⟨Modified, readyPod⟩]).watch.1[j]? = some x →
        x.type = Modified) ∧
      (watchLoop (storeWith [⟨Added, helloPod⟩, ⟨Modified, readyPod⟩]).watch.1 Watcher.fresh
        (storeWith [⟨Added, helloPod⟩, ⟨Modified, readyPod⟩]).create.1 0).consumed = k + 1 ∧
      workflow (storeWith [⟨Added, helloPod⟩, ⟨Modified, readyPod⟩]) 5 =
        { outcome := .panicked (.msg ("unexpected event type " ++ e1.type)),
          calls := [Call.create helloPod (storeWith [⟨Added, helloPod⟩, ⟨Modified, readyPod⟩]).create,
            Call.watch (storeWith [⟨Added, helloPod⟩, ⟨Modified, readyPod⟩]).create.1.name
              (storeWith [⟨Added, helloPod⟩, ⟨Modified, readyPod⟩]).create.1.resourceVersion none] } :=
  workflow_aborts_on_unexpected_event (storeWith [⟨Added, helloPod⟩, ⟨Modified, readyPod⟩]) 5 0
    ⟨Added, helloPod⟩ rfl rfl rfl (by decide) (by intro j x hj; omega)

/-- C3 fails as stated: on a stream of one Modified event without Ready that the
server then closes, the loop ends normally although no event carried Ready,
the watcher was never stopped, and the workflow goes on to Get and Update. -/
theorem watch_loop_exits_without_ready :
    (watchLoop [⟨Modified, notReadyPod⟩] Watcher.fresh helloPod 0).outcome = .completed ∧
    (watchLoop [⟨Modified, notReadyPod⟩] Watcher.fresh helloPod 0).consumed = 1 ∧
    (∀ x ∈ [(⟨Modified, notReadyPod⟩ : Event)], hasReady x.object = false) ∧
    (workflow (storeWith [⟨Modified, notReadyPod⟩]) 5).calls.map Call.op =
      [.create, .watch, .get, .update, .patch, .delete, .delete] := by
  decide

/-- C3 as amended: when the watch loop ends normally, either some received
Modified event carried a Ready condition of status True and the watcher was
stopped, or the server closed the stream after events that were all Modified
and without Ready, every one of them received and the watcher not stopped. -/
theorem watch_loop_normal_exit (evs : List Event) (pod : Pod)
    (h : (watchLoop evs Watcher.fresh pod 0).outcome = .completed) :
    ((watchLoop evs Watcher.fresh pod 0).watcher.stopped = true ∧
      ∃ x ∈ evs.take (watchLoop evs Watcher.fresh pod 0).consumed,
        x.type = Modified ∧ hasReady x.object = true) ∨
    ((watchLoop evs Watcher.fresh pod 0).watcher.stopped = false ∧
      (watchLoop evs Watcher.fresh pod 0).consumed = evs.length ∧
      (watchLoop evs Watcher.fresh pod 0).remaining = [] ∧
      ∀ x ∈ evs, x.type = Modified ∧ hasReady x.object = false) := by
  rcases all_modified_or_split evs with hall | ⟨pre, e, post, heq, hpre, he⟩
  · have hrun := watchLoop_all_modified evs Watcher.fresh pod 0 hall
    rw [hrun]
    cases hany : evs.any (fun e => hasReady e.object) with
    | true =>
      left
      obtain ⟨x, hx, hr⟩ := mem_ready_of_any evs hany
      refine ⟨by simp [stopAll_stopped, hany], x, ?_, hall x hx, hr⟩
      simpa using hx
    | false =>
      right
      have hno : ∀ x ∈ evs, hasReady x.object = false := by
        intro x hx
        cases hr : hasReady x.object
        · rfl
        · rw [any_ready_of_mem evs x hx hr] at hany; cases hany
      refine ⟨by simp [stopAll_stopped, hany, Watcher.fresh], by simp, rfl, ?_⟩
      exact fun x hx => ⟨hall x hx, hno x hx⟩
  · rw [heq, watchLoop_at_unexpected pre post e Watcher.fresh pod 0 hpre he] at h
    cases h

/-- C3 as amended, at the scripted stream: the loop ends normally and the second
event carried Ready. -/
theorem watch_loop_normal_exit_witness :
    ((watchLoop scriptedEvents Watcher.fresh helloPod 0).watcher.stopped = true ∧
      ∃ x ∈ scriptedEvents.take (watchLoop scriptedEvents Watcher.fresh helloPod 0).consumed,
        x.type = Modified ∧ hasReady x.object = true) ∨
    ((watchLoop scriptedEvents Watcher.fresh helloPod 0).watcher.stopped = false ∧
      (watchLoop scriptedEvents Watcher.fresh helloPod 0).consumed = scriptedEvents.length ∧
      (watchLoop scriptedEvents Watcher.fresh helloPod 0).remaining = [] ∧
      ∀ x ∈ scriptedEvents, x.type = Modified ∧ hasReady x.object = false) :=
  watch_loop_normal_exit scriptedEvents helloPod (by decide)

/-- C10 fails as stated: on an Added event with more of the stream to come, the
loop panics at the first event and the program has made no call of Stop. -/
theorem watch_loop_exits_without_stop :
    (watchLoop [⟨Added, helloPod⟩, ⟨Modified, notReadyPod⟩] Watcher.fresh helloPod 0).outcome =
      .panicked (.msg "unexpected event type ADDED") ∧
    (watchLoop [⟨Added, helloPod⟩, ⟨Modified, notReadyPod⟩] Watcher.fresh helloPod 0).consumed =
      1 ∧
    (watchLoop [⟨Added, helloPod⟩, ⟨Modified, notReadyPod⟩] Watcher.fresh helloPod 0).remaining =
      [⟨Modified, notReadyPod⟩] ∧
    (watchLoop [⟨Added, helloPod⟩, ⟨Modified, notReadyPod⟩] Watcher.fresh helloPod 0).watcher =
      { stopped := false, stopCalls := 0 } := by
  decide

/-- C10 as amended: when the watch loop is left, on any exit path, the program
has called Stop on the watcher exactly when a received Modified event carried
a Ready condition of status True; so when no received event did, be it on a
panic on an unexpected event or when the channel delivered nothing more, the
program has made no call of Stop. -/
theorem watch_loop_stop_iff_ready (evs : List Event) (pod : Pod) :
    ((watchLoop evs Watcher.fresh pod 0).watcher.stopped = true ↔
      ∃ x ∈ evs.take (watchLoop evs Watcher.fresh pod 0).consumed,
        x.type = Modified ∧ hasReady x.object = true) ∧
    ((∀ x ∈ evs.take (watchLoop evs Watcher.fresh pod 0).consumed,
        ¬ (x.type = Modified ∧ hasReady x.object = true)) →
      (watchLoop evs Watcher.fresh pod 0).watcher = Watcher.fresh) := by
  rcases all_modified_or_split evs with hall | ⟨pre, e, post, heq, hpre, he⟩
  · rw [watchLoop_all_modified evs Watcher.fresh pod 0 hall]
    have htake : evs.take (0 + evs.length) = evs := by simp
    simp only [htake]
    refine ⟨⟨?_, ?_⟩, ?_⟩
    · intro hs
      rw [stopAll_stopped] at hs
      have hany : evs.any (fun e => hasReady e.object) = true := by
        simpa [Watcher.fresh] using hs
      obtain ⟨x, hx, hr⟩ := mem_ready_of_any evs hany
      exact ⟨x, hx, hall x hx, hr⟩
    · rintro ⟨x, hx, _, hr⟩
      rw [stopAll_stopped, any_ready_of_mem evs x hx hr]
      simp
    · intro hno
      apply stopAll_of_not_ready
      intro x hx
      cases hr : hasReady x.object
      · rfl
      · exact absurd ⟨hall x hx, hr⟩ (hno x hx)
  · rw [heq, watchLoop_at_unexpected pre post e Watcher.fresh pod 0 hpre he]
    have htake : (pre ++ e :: post).take (0 + pre.length + 1) = pre ++ [e] := by
      rw [Nat.zero_add]; exact take_through pre post e
    simp only [htake]
    refine ⟨⟨?_, ?_⟩, ?_⟩
    · intro hs
      rw [stopAll_stopped] at hs
      have hany : pre.any (fun e => hasReady e.object) = true := by
        simpa [Watcher.fresh] using hs
      obtain ⟨x, hx, hr⟩ := mem_ready_of_any pre hany
      exact ⟨x, List.mem_append_left _ hx, hpre x hx, hr⟩
    · rintro ⟨x, hx, hxm, hr⟩
      rcases List.mem_append.1 hx with hx | hx
      · rw [stopAll_stopped, any_ready_of_mem pre x hx hr]
        simp
      · rw [List.mem_singleton.1 hx] at hxm
        exact absurd hxm he
    · intro hno
      apply stopAll_of_not_ready
      intro x hx
      cases hr : hasReady x.object
      · rfl
      · exact absurd ⟨hpre x hx, hr⟩ (hno x (List.mem_append_left _ hx))

/-! ## Facts about the update step -/

theorem updateAttempt_eq (st : Store) (s : ProgState) :
    updateAttempt st s =
      match (st.get s.gets s.pod.name).2 with
      | some e => (some e, afterGet st s)
      | none => ((st.update s.updates).2, afterUpdate st s) := by
  rfl

theorem traced_some (n m : String) (d : Call) (l : List Call) (h : Traced n (some d) l) :
    Traced m (some d) l := by
  induction l generalizing d with
  | nil => trivial
  | cons c rest ih => exact ⟨h.1, ih c h.2⟩

theorem traced_after (name0 n : String) (c : Call) (l : List Call) (e : APIError) (p : Pod)
    (herr : c.err = some e) (hc : IsConflict e = true) (hret : c.returned = some p)
    (hn : p.name = n) (h : Traced n none l) : Traced name0 (some c) l := by
  cases l with
  | nil => trivial
  | cons d rest =>
    obtain ⟨⟨res, hd⟩, hrest⟩ := h
    refine ⟨?_, ?_⟩
    · subst hd
      exact ⟨⟨e, herr, hc⟩, by simp [hret, hn]⟩
    · exact traced_some _ _ _ _ hrest

/-- Two calls next to each other in a trace of the update step. -/
theorem traced_adjacent (name0 : String) (l1 l2 : List Call) (c1 c2 : Call)
    (prev : Option Call) (h : Traced name0 prev (l1 ++ c1 :: c2 :: l2)) : Follows c1 c2 := by
  induction l1 generalizing prev with
  | nil =>
    cases prev with
    | none => exact h.2.1
    | some p => exact h.2.1
  | cons a as ih =>
    cases prev with
    | none => exact ih (some a) h.2
    | some p => exact ih (some a) h.2

/-- The first call of a trace of the update step. -/
theorem traced_first (name0 : String) (c : Call) (l : List Call)
    (h : Traced name0 none (c :: l)) : ∃ res, c = .get name0 res := h.1

/-- What the retry loop adds to the trace: a trace of the update step that
starts with a Get addressed to the current `pod.Name`; the error it returns is
the error of the last call, and `pod` is the pod the last call returned. -/
theorem retryLoop_trace (st : Store) (k : Nat) (last : Option APIError) (s : ProgState) :
    ∃ added, (retryLoop (updateAttempt st) k last s).2.calls = s.calls ++ added ∧
      Traced s.pod.name none added ∧
      (∀ c ∈ added, c.op = .get ∨ c.op = .update) ∧
      (added = [] → (retryLoop (updateAttempt st) k last s).1 = last ∧
        (retryLoop (updateAttempt st) k last s).2.pod = s.pod) ∧
      (∀ c, added.getLast? = some c →
        (retryLoop (updateAttempt st) k last s).1 = c.err ∧
        c.returned = some (retryLoop (updateAttempt st) k last s).2.pod) := by
  induction k generalizing last s with
  | zero => exact ⟨[], by simp [retryLoop], trivial, by simp, by simp [retryLoop], by simp⟩
  | succ k ih =>
    cases hg : (st.get s.gets s.pod.name).2 with
    | some e =>
      -- the Get failed
      by_cases hc : IsConflict e = true
      · obtain ⟨added, hcalls, htr, hops, hnil, hlast⟩ := ih (some e)
          (afterGet st s)
        have hrun : retryLoop (updateAttempt st) (k + 1) last s =
            retryLoop (updateAttempt st) k (some e)
              (afterGet st s) := by
          simp [retryLoop, updateAttempt_eq, hg, hc]
        rw [hrun]
        refine ⟨Call.get s.pod.name (st.get s.gets s.pod.name) :: added, ?_, ?_, ?_, ?_, ?_⟩
        · rw [hcalls]; simp [afterGet, afterUpdate]
        · exact ⟨⟨_, rfl⟩, traced_after _ _ _ _ e _ hg hc rfl rfl htr⟩
        · intro c hcm
          rcases List.mem_cons.1 hcm with rfl | hcm
          · left; rfl
          · exact hops c hcm
        · intro h; cases h
        · intro c hcl
          cases added with
          | nil =>
            have hq := hnil rfl
            simp only [List.getLast?_singleton, Option.some.injEq] at hcl
            subst hcl
            exact ⟨by rw [hq.1]; exact hg.symm, by rw [hq.2]; rfl⟩
          | cons d rest =>
            rw [List.getLast?_cons_cons] at hcl
            exact hlast c hcl
      · have hrun : retryLoop (updateAttempt st) (k + 1) last s =
            (some e, (afterGet st s)) := by
          simp [retryLoop, updateAttempt_eq, hg, hc]
        rw [hrun]
        refine ⟨[Call.get s.pod.name (st.get s.gets s.pod.name)], rfl, ⟨⟨_, rfl⟩, trivial⟩, ?_, ?_, ?_⟩
        · intro c hcm
          rw [List.mem_singleton.1 hcm]; left; rfl
        · intro h; cases h
        · intro c hcl
          simp only [List.getLast?_singleton, Option.some.injEq] at hcl
          subst hcl
          exact ⟨hg.symm, rfl⟩
    | none =>
      -- the Get succeeded, the Update is issued
      have hfol : Follows (Call.get s.pod.name (st.get s.gets s.pod.name))
          (Call.update (annotate (st.get s.gets s.pod.name).1) (st.update s.updates)) :=
        ⟨s.pod.name, (st.get s.gets s.pod.name).1, by rw [← hg], rfl⟩
      cases hu : (st.update s.updates).2 with
      | none =>
        have hrun : retryLoop (updateAttempt st) (k + 1) last s =
            (none, (afterUpdate st s)) := by
          simp [retryLoop, updateAttempt_eq, hg, hu]
        rw [hrun]
        refine ⟨[Call.get s.pod.name (st.get s.gets s.pod.name),
          Call.update (annotate (st.get s.gets s.pod.name).1) (st.update s.updates)], by simp [afterUpdate],
          ⟨⟨_, rfl⟩, hfol, trivial⟩, ?_, ?_, ?_⟩
        · intro c hcm
          simp only [List.mem_cons, List.mem_singleton, List.not_mem_nil, or_false] at hcm
          rcases hcm with rfl | rfl
          · left; rfl
          · right; rfl
        · intro h; cases h
        · intro c hcl
          simp only [List.getLast?_cons_cons, List.getLast?_singleton, Option.some.injEq] at hcl
          subst hcl
          exact ⟨hu.symm, rfl⟩
      | some e =>
        by_cases hc : IsConflict e = true
        · obtain ⟨added, hcalls, htr, hops, hnil, hlast⟩ := ih (some e)
            (afterUpdate st s)
          have hrun : retryLoop (updateAttempt st) (k + 1) last s =
              retryLoop (updateAttempt st) k (some e)
                (afterUpdate st s) := by
            simp [retryLoop, updateAttempt_eq, hg, hu, hc]
          rw [hrun]
          refine ⟨Call.get s.pod.name (st.get s.gets s.pod.name) ::
            Call.update (annotate (st.get s.gets s.pod.name).1) (st.update s.updates) :: added,
            ?_, ?_, ?_, ?_, ?_⟩
          · rw [hcalls]; simp [afterGet, afterUpdate]
          · exact ⟨⟨_, rfl⟩, hfol, traced_after _ _ _ _ e _ hu hc rfl rfl htr⟩
          · intro c hcm
            rcases List.mem_cons.1 hcm with rfl | hcm
            · left; rfl
            · rcases List.mem_cons.1 hcm with rfl | hcm
              · right; rfl
              · exact hops c hcm
          · intro h; cases h
          · intro c hcl
            cases added with
            | nil =>
              have hq := hnil rfl
              simp only [List.getLast?_cons_cons, List.getLast?_singleton,
                Option.some.injEq] at hcl
              subst hcl
              exact ⟨by rw [hq.1]; exact hu.symm, by rw [hq.2]; rfl⟩
            | cons d rest =>
              rw [List.getLast?_cons_cons, List.getLast?_cons_cons] at hcl
              exact hlast c hcl
        · have hrun : retryLoop (updateAttempt st) (k + 1) last s =
              (some e, (afterUpdate st s)) := by
            simp [retryLoop, updateAttempt_eq, hg, hu, hc]
          rw [hrun]
          refine ⟨[Call.get s.pod.name (st.get s.gets s.pod.name),
            Call.update (annotate (st.get s.gets s.pod.name).1) (st.update s.updates)], by simp [afterUpdate],
            ⟨⟨_, rfl⟩, hfol, trivial⟩, ?_, ?_, ?_⟩
          · intro c hcm
            simp only [List.mem_cons, List.mem_singleton, List.not_mem_nil, or_false] at hcm
            rcases hcm with rfl | rfl
            · left; rfl
            · right; rfl
          · intro h; cases h
          · intro c hcl
            simp only [List.getLast?_cons_cons, List.getLast?_singleton,
              Option.some.injEq] at hcl
            subst hcl
            exact ⟨hu.symm, rfl⟩

/-- What the update step adds to the trace, for the program's call of
`retry.RetryOnConflict`. -/
theorem update_step_trace (st : Store) (steps : Nat) (pod : Pod) (calls : List Call) :
    ∃ added,
      (RetryOnConflict steps (updateAttempt st)
        { pod := pod, calls := calls, gets := 0, updates := 0 }).2.calls = calls ++ added ∧
      Traced pod.name none added ∧
      (∀ c ∈ added, c.op = .get ∨ c.op = .update) ∧
      (∀ c, added.getLast? = some c →
        (RetryOnConflict steps (updateAttempt st)
          { pod := pod, calls := calls, gets := 0, updates := 0 }).1 = c.err) := by
  obtain ⟨added, h1, h2, h3, _, h5⟩ := retryLoop_trace st steps none
    { pod := pod, calls := calls, gets := 0, updates := 0 }
  exact ⟨added, h1, h2, h3, fun c hc => (h5 c hc).1⟩

/-- No call comes after a call of the update step that failed with an error
that is not a conflict, or after an Update that succeeded. -/
theorem traced_ends (name0 : String) (l1 l2 : List Call) (c : Call)
    (h : Traced name0 none (l1 ++ c :: l2))
    (hc : (∃ e, c.err = some e ∧ IsConflict e = false) ∨ (c.op = .update ∧ c.err = none)) :
    l2 = [] := by
  cases l2 with
  | nil => rfl
  | cons d rest =>
    exfalso
    have hf := traced_adjacent name0 l1 rest c d none h
    cases d with
    | get n res =>
      obtain ⟨⟨e1, he1, hcf⟩, _⟩ := hf
      rcases hc with ⟨e, he, hne⟩ | ⟨_, hnone⟩
      · rw [he] at he1
        cases he1
        rw [hne] at hcf
        cases hcf
      · rw [hnone] at he1
        cases he1
    | update arg res =>
      obtain ⟨m, g, hcg, _⟩ := hf
      subst hcg
      rcases hc with ⟨e, he, _⟩ | ⟨hop, _⟩
      · cases he
      · cases hop
    | create _ _ => exact hf
    | watch _ _ _ => exact hf
    | patch _ _ _ _ => exact hf
    | delete _ _ => exact hf

theorem mapGet_mapSet_same (m : StringMap) (k v : String) : mapGet (mapSet m k v) k = some v := by
  simp [mapGet, mapSet]

theorem find_filter_other (m : StringMap) (k k1 : String) (h : k1 ≠ k) :
    (m.filter (fun kv => !(kv.1 == k))).find? (fun kv => kv.1 == k1) =
      m.find? (fun kv => kv.1 == k1) := by
  have hk : ¬ k = k1 := fun hh => h hh.symm
  induction m with
  | nil => rfl
  | cons a as ih =>
    by_cases ha : a.1 = k
    · simp [List.filter_cons, List.find?_cons, ha, hk, ih]
    · by_cases h2 : a.1 = k1
      · simp [List.filter_cons, List.find?_cons, ha, h2, h]
      · simp [List.filter_cons, List.find?_cons, ha, h2, ih]

theorem mapGet_mapSet_other (m : StringMap) (k v k1 : String) (h : k1 ≠ k) :
    mapGet (mapSet m k v) k1 = mapGet m k1 := by
  have hk : ¬ k = k1 := fun hh => h hh.symm
  have hb : (k == k1) = false := by
    cases hh : (k == k1)
    · rfl
    · exact absurd (beq_iff_eq.1 hh) hk
  simp only [mapGet, mapSet]
  rw [List.find?_cons]
  simp only [hb, find_filter_other m k k1 h]

/-! ## The claims about the update step -/

/-- C5: in the trace of the update step, which holds only Get and Update calls,
a Get comes after another call only when that call failed with a version
conflict, and an Update only after a successful Get; a call that fails with an
error that is not a conflict is the last call, and the workflow panics with
that error; an Update that succeeds is the last call of the step, which then
returns no error. -/
theorem update_retries_only_on_conflict (st : Store) (steps : Nat) (pod : Pod)
    (calls : List Call) :
    ∃ added,
      (RetryOnConflict steps (updateAttempt st)
        { pod := pod, calls := calls, gets := 0, updates := 0 }).2.calls = calls ++ added ∧
      (∀ c ∈ added, c.op = .get ∨ c.op = .update) ∧
      (∀ l1 c1 c2 l2, added = l1 ++ c1 :: c2 :: l2 →
        (c2.op = .get → ∃ e, c1.err = some e ∧ IsConflict e = true) ∧
        (c2.op = .update → c1.op = .get ∧ c1.err = none)) ∧
      (∀ l1 c l2 e, added = l1 ++ c :: l2 → c.err = some e → IsConflict e = false →
        l2 = [] ∧
        updateThenRest st steps pod calls =
          { outcome := .panicked (.err (some e)), calls := calls ++ added }) ∧
      (∀ l1 c l2, added = l1 ++ c :: l2 → c.op = .update → c.err = none →
        l2 = [] ∧
        (RetryOnConflict steps (updateAttempt st)
          { pod := pod, calls := calls, gets := 0, updates := 0 }).1 = none) := by
  obtain ⟨added, hcalls, htr, hops, hlast⟩ := update_step_trace st steps pod calls
  refine ⟨added, hcalls, hops, ?_, ?_, ?_⟩
  · intro l1 c1 c2 l2 heq
    rw [heq] at htr
    have hf := traced_adjacent pod.name l1 l2 c1 c2 none htr
    cases c2 with
    | get n res => exact ⟨fun _ => hf.1, fun h => (by cases h)⟩
    | update arg res =>
      obtain ⟨m, g, hcg, _⟩ := hf
      subst hcg
      exact ⟨fun h => (by cases h), fun _ => ⟨rfl, rfl⟩⟩
    | create _ _ => exact hf.elim
    | watch _ _ _ => exact hf.elim
    | patch _ _ _ _ => exact hf.elim
    | delete _ _ => exact hf.elim
  · intro l1 c l2 e heq herr hne
    have hl2 : l2 = [] := by
      rw [heq] at htr
      exact traced_ends pod.name l1 l2 c htr (Or.inl ⟨e, herr, hne⟩)
    subst hl2
    refine ⟨rfl, ?_⟩
    have hr := hlast c (by rw [heq]; simp)
    rw [herr] at hr
    simp only [updateThenRest, hr, hcalls]
  · intro l1 c l2 heq hop herr
    have hl2 : l2 = [] := by
      rw [heq] at htr
      exact traced_ends pod.name l1 l2 c htr (Or.inr ⟨hop, herr⟩)
    subst hl2
    refine ⟨rfl, ?_⟩
    have hr := hlast c (by rw [heq]; simp)
    rw [herr] at hr
    exact hr

/-- C6: every Update of the update step, so also the one that succeeds, comes
right after a successful Get and submits the pod that Get returned with only
the annotations changed: same name, version token, spec and conditions; key
"testing" is "true", and every other key has the value it had in the pod of
that Get, a nil map counting as empty. -/
theorem update_submits_last_get_annotated (st : Store) (steps : Nat) (pod : Pod)
    (calls : List Call) :
    ∃ added,
      (RetryOnConflict steps (updateAttempt st)
        { pod := pod, calls := calls, gets := 0, updates := 0 }).2.calls = calls ++ added ∧
      ∀ l1 arg res l2, added = l1 ++ Call.update arg res :: l2 →
        ∃ l0 n g, l1 = l0 ++ [Call.get n (g, none)] ∧
          arg = { g with annotations := arg.annotations } ∧
          ∃ m, arg.annotations = some m ∧ mapGet m "testing" = some "true" ∧
            ∀ k, k ≠ "testing" → mapGet m k = mapGet (g.annotations.getD []) k := by
  obtain ⟨added, hcalls, htr, _, _⟩ := update_step_trace st steps pod calls
  refine ⟨added, hcalls, ?_⟩
  intro l1 arg res l2 heq
  rw [heq] at htr
  rcases List.eq_nil_or_concat l1 with hnil | ⟨l0, c, hl1⟩
  · subst hnil
    obtain ⟨r1, hr1⟩ := traced_first pod.name _ _ htr
    cases hr1
  · rw [List.concat_eq_append] at hl1
    subst hl1
    rw [List.append_assoc] at htr
    have hf := traced_adjacent pod.name l0 l2 c (Call.update arg res) none htr
    obtain ⟨n, g, hcg, harg⟩ := hf
    subst hcg
    subst harg
    exact ⟨l0, n, g, rfl, rfl, _, rfl, mapGet_mapSet_same _ _ _,
      fun k hk => mapGet_mapSet_other _ _ _ k hk⟩

/-! ## The claims about the delete step and the whole workflow -/

theorem workflow_of_create_error (st : Store) (steps : Nat) (e : APIError)
    (h : st.create.2 = some e) :
    workflow st steps =
      { outcome := .panicked (.err (some e)), calls := [Call.create helloPod st.create] } := by
  simp only [workflow, h]

theorem workflow_of_watch_error (st : Store) (steps : Nat) (e : APIError)
    (hc : st.create.2 = none) (h : st.watch.2 = some e) :
    workflow st steps =
      { outcome := .panicked (.err (some e)), calls := openingCalls st } := by
  simp only [workflow, hc, h, openingCalls]

theorem workflow_of_loop_panic (st : Store) (steps : Nat) (v : PanicValue)
    (hc : st.create.2 = none) (hw : st.watch.2 = none)
    (h : (watchLoop st.watch.1 Watcher.fresh st.create.1 0).outcome = .panicked v) :
    workflow st steps = { outcome := .panicked v, calls := openingCalls st } := by
  simp only [workflow, hc, hw, h, openingCalls]

theorem workflow_of_loop_done (st : Store) (steps : Nat)
    (hc : st.create.2 = none) (hw : st.watch.2 = none)
    (h : (watchLoop st.watch.1 Watcher.fresh st.create.1 0).outcome = .completed) :
    workflow st steps =
      updateThenRest st steps (watchLoop st.watch.1 Watcher.fresh st.create.1 0).pod
        (openingCalls st) := by
  simp only [workflow, hc, hw, h, openingCalls]

theorem updateThenRest_of_error (st : Store) (steps : Nat) (pod : Pod) (calls : List Call)
    (e : APIError)
    (h : (RetryOnConflict steps (updateAttempt st)
      { pod := pod, calls := calls, gets := 0, updates := 0 }).1 = some e) :
    updateThenRest st steps pod calls =
      { outcome := .panicked (.err (some e)),
        calls := (RetryOnConflict steps (updateAttempt st)
          { pod := pod, calls := calls, gets := 0, updates := 0 }).2.calls } := by
  simp only [updateThenRest, h]

theorem updateThenRest_of_success (st : Store) (steps : Nat) (pod : Pod) (calls : List Call)
    (h : (RetryOnConflict steps (updateAttempt st)
      { pod := pod, calls := calls, gets := 0, updates := 0 }).1 = none) :
    updateThenRest st steps pod calls =
      patchThenDelete st
        (RetryOnConflict steps (updateAttempt st)
          { pod := pod, calls := calls, gets := 0, updates := 0 }).2.pod
        (RetryOnConflict steps (updateAttempt st)
          { pod := pod, calls := calls, gets := 0, updates := 0 }).2.calls := by
  simp only [updateThenRest, h]

theorem patchThenDelete_of_error (st : Store) (pod : Pod) (calls : List Call) (e : APIError)
    (h : st.patch.2 = some e) :
    patchThenDelete st pod calls =
      { outcome := .panicked (.err (some e)),
        calls := calls ++ [Call.patch pod.name JSONPatchType patch st.patch] } := by
  simp only [patchThenDelete, h]

theorem patchThenDelete_of_success (st : Store) (pod : Pod) (calls : List Call)
    (h : st.patch.2 = none) :
    patchThenDelete st pod calls =
      deleteTwice st st.patch.1
        (calls ++ [Call.patch pod.name JSONPatchType patch st.patch]) := by
  simp only [patchThenDelete, h]

theorem openingCalls_no_delete (st : Store) : ∀ c ∈ openingCalls st, c.op ≠ .delete := by
  intro c hc
  simp only [openingCalls, List.mem_append, List.mem_singleton] at hc
  rcases hc with rfl | rfl <;> (intro h; cases h)

/-- The update and patch steps either panic without a Delete in the trace, or
reach the delete step of lines 132-143 with the pod that Patch returned. -/
theorem updateThenRest_reaches_delete (st : Store) (steps : Nat) (pod : Pod)
    (calls : List Call) (hcalls : ∀ c ∈ calls, c.op ≠ .delete) :
    (∃ v cs, updateThenRest st steps pod calls = { outcome := .panicked v, calls := cs } ∧
      ∀ c ∈ cs, c.op ≠ .delete) ∨
    (∃ cs, updateThenRest st steps pod calls = deleteTwice st st.patch.1 cs ∧
      ∀ c ∈ cs, c.op ≠ .delete) := by
  obtain ⟨added, hadd, _, hops, _⟩ := update_step_trace st steps pod calls
  have hupd : ∀ c ∈ (RetryOnConflict steps (updateAttempt st)
      { pod := pod, calls := calls, gets := 0, updates := 0 }).2.calls, c.op ≠ .delete := by
    intro c hc
    rw [hadd] at hc
    rcases List.mem_append.1 hc with hc | hc
    · exact hcalls c hc
    · rcases hops c hc with h | h <;> (rw [h]; intro hh; cases hh)
  cases hre : (RetryOnConflict steps (updateAttempt st)
      { pod := pod, calls := calls, gets := 0, updates := 0 }).1 with
  | some e =>
    left
    exact ⟨_, _, updateThenRest_of_error st steps pod calls e hre, hupd⟩
  | none =>
    rw [updateThenRest_of_success st steps pod calls hre]
    have hpat : ∀ c ∈ (RetryOnConflict steps (updateAttempt st)
        { pod := pod, calls := calls, gets := 0, updates := 0 }).2.calls ++
        [Call.patch (RetryOnConflict steps (updateAttempt st)
          { pod := pod, calls := calls, gets := 0, updates := 0 }).2.pod.name
          JSONPatchType patch st.patch], c.op ≠ .delete := by
      intro c hc
      rcases List.mem_append.1 hc with hc | hc
      · exact hupd c hc
      · rw [List.mem_singleton.1 hc]
        intro hh; cases hh
    cases hpa : st.patch.2 with
    | some e =>
      left
      exact ⟨_, _, patchThenDelete_of_error st _ _ e hpa, hpat⟩
    | none =>
      right
      exact ⟨_, patchThenDelete_of_success st _ _ hpa, hpat⟩

/-- The workflow either panics before any Delete, or reaches the delete step
of lines 132-143 with the pod that Patch returned. -/
theorem workflow_reaches_delete (st : Store) (steps : Nat) :
    (∃ v calls, workflow st steps = { outcome := .panicked v, calls := calls } ∧
      ∀ c ∈ calls, c.op ≠ .delete) ∨
    (∃ calls, workflow st steps = deleteTwice st st.patch.1 calls ∧
      ∀ c ∈ calls, c.op ≠ .delete) := by
  cases hcr : st.create.2 with
  | some e =>
    left
    refine ⟨_, _, workflow_of_create_error st steps e hcr, ?_⟩
    intro c hc
    rw [List.mem_singleton.1 hc]
    intro h; cases h
  | none =>
    cases hwa : st.watch.2 with
    | some e =>
      left
      exact ⟨_, _, workflow_of_watch_error st steps e hcr hwa, openingCalls_no_delete st⟩
    | none =>
      cases hout : (watchLoop st.watch.1 Watcher.fresh st.create.1 0).outcome with
      | panicked v =>
        left
        exact ⟨_, _, workflow_of_loop_panic st steps v hcr hwa hout, openingCalls_no_delete st⟩
      | completed =>
        rw [workflow_of_loop_done st steps hcr hwa hout]
        exact updateThenRest_reaches_delete st steps _ _ (openingCalls_no_delete st)

/-- C4: when the workflow reaches the delete step and the first Delete
succeeds, the workflow completes exactly when the second Delete returns an
error of the not-found kind; when the second Delete returns no error, or an
error of another kind, the workflow panics with what that Delete returned. -/
theorem second_delete_must_be_not_found (st : Store) (steps : Nat)
    (hreach : ∃ c ∈ (workflow st steps).calls, c.op = .delete)
    (hfirst : st.delete 0 = none) :
    ((workflow st steps).outcome = .completed ↔
      ∃ e, st.delete 1 = some e ∧ IsNotFound e = true) ∧
    ((st.delete 1 = none ∨ ∃ e, st.delete 1 = some e ∧ IsNotFound e = false) →
      (workflow st steps).outcome = .panicked (.err (st.delete 1))) := by
  rcases workflow_reaches_delete st steps with ⟨v, calls, hw, hno⟩ | ⟨calls, hw, _⟩
  · exfalso
    obtain ⟨c, hc, hop⟩ := hreach
    rw [hw] at hc
    exact hno c hc hop
  · rw [hw]
    simp only [deleteTwice, hfirst]
    cases h2 : st.delete 1 with
    | none => simp
    | some e =>
      cases hnf : IsNotFound e <;> simp [hnf]

/-- C4, at the store that answers the second Delete with not-found. -/
theorem second_delete_must_be_not_found_witness :
    ((workflow (storeWith scriptedEvents) 5).outcome = .completed ↔
      ∃ e, (storeWith scriptedEvents).delete 1 = some e ∧ IsNotFound e = true) ∧
    (((storeWith scriptedEvents).delete 1 = none ∨
        ∃ e, (storeWith scriptedEvents).delete 1 = some e ∧ IsNotFound e = false) →
      (workflow (storeWith scriptedEvents) 5).outcome =
        .panicked (.err ((storeWith scriptedEvents).delete 1))) :=
  second_delete_must_be_not_found (storeWith scriptedEvents) 5 (by decide) rfl

/-! ## Facts about the patch -/

theorem memberGet_stringMap (m : StringMap) (k : String) :
    memberGet (m.map (fun kv => (kv.1, Json.str kv.2))) k = (mapGet m k).map Json.str := by
  induction m with
  | nil => rfl
  | cons a as ih =>
    simp only [memberGet, mapGet, List.map_cons, List.find?_cons] at ih ⊢
    cases h : (a.1 == k)
    · simpa using ih
    · rfl

theorem memberErase_stringMap (m : StringMap) (k : String) :
    memberErase (m.map (fun kv => (kv.1, Json.str kv.2))) k =
      (mapErase m k).map (fun kv => (kv.1, Json.str kv.2)) := by
  induction m with
  | nil => rfl
  | cons a as ih =>
    simp only [memberErase, mapErase, List.map_cons, List.filter_cons] at ih ⊢
    cases h : (a.1 == k) <;> simp [ih]

theorem mapGet_mapErase_same (m : StringMap) (k : String) : mapGet (mapErase m k) k = none := by
  induction m with
  | nil => rfl
  | cons a as ih =>
    simp only [mapGet, mapErase, List.filter_cons] at ih ⊢
    cases h : (a.1 == k)
    · simp [List.find?_cons, h, ih]
    · simp [ih]

theorem mapGet_mapErase_other (m : StringMap) (k k1 : String) (h : k1 ≠ k) :
    mapGet (mapErase m k) k1 = mapGet m k1 := by
  simp only [mapGet, mapErase, find_filter_other m k k1 h]

theorem decodePatch_patch :
    decodePatch patch =
      some [{ op := "remove", path := "/metadata/annotations/testing", value := none }] := by
  decide

theorem removeAt_last (k : String) (ms : List (String × Json)) :
    removeAt [k] (.obj ms) =
      match memberGet ms k with
      | none => none
      | some _ => some (.obj (memberErase ms k)) := by
  rw [removeAt]

theorem removeAt_step (k t : String) (ts : List String) (ms : List (String × Json)) :
    removeAt (k :: t :: ts) (.obj ms) =
      match memberGet ms k with
      | none => none
      | some v =>
        match removeAt (t :: ts) v with
        | none => none
        | some v1 => some (.obj (memberPut ms k v1)) := by
  rw [removeAt]

theorem toJson_of_annotations (p : Pod) (m : StringMap) (hm : p.annotations = some m) :
    p.toJson = .obj
      [("metadata", metadataJson p m),
       ("spec", .obj
          [("containers", .arr (p.spec.containers.map (fun c =>
              Json.obj [("name", .str c.name), ("image", .str c.image),
                ("readinessProbeHTTPGetPort", optIntJson c.readinessProbeHTTPGetPort)]))),
           ("terminationGracePeriodSeconds",
              optIntJson p.spec.terminationGracePeriodSeconds)]),
       ("status", .obj
          [("conditions", .arr (p.conditions.map (fun c =>
              Json.obj [("type", .str c.type), ("status", .str c.status)])))])] := by
  simp only [Pod.toJson, hm, metadataJson, List.cons_append, List.nil_append]

theorem removeAt_testing (m : StringMap) :
    removeAt ["testing"] (stringMapJson m) =
      match mapGet m "testing" with
      | none => none
      | some _ => some (stringMapJson (mapErase m "testing")) := by
  rw [stringMapJson, removeAt_last, memberGet_stringMap, memberErase_stringMap]
  cases mapGet m "testing" <;> rfl

theorem removeAt_annotations (p : Pod) (m : StringMap) :
    removeAt ["annotations", "testing"] (metadataJson p m) =
      match mapGet m "testing" with
      | none => none
      | some _ => some (metadataJson p (mapErase m "testing")) := by
  have hget : memberGet [("name", Json.str p.name),
      ("resourceVersion", Json.str p.resourceVersion), ("annotations", stringMapJson m)]
      "annotations" = some (stringMapJson m) := by
    have h2 : ("name" == "annotations") = false := by decide
    have h3 : ("resourceVersion" == "annotations") = false := by decide
    have h4 : ("annotations" == "annotations") = true := by decide
    simp only [memberGet, List.find?_cons, h2, h3, h4, Option.map]
  have hput : ∀ v, memberPut [("name", Json.str p.name),
      ("resourceVersion", Json.str p.resourceVersion), ("annotations", stringMapJson m)]
      "annotations" v = [("name", Json.str p.name),
      ("resourceVersion", Json.str p.resourceVersion), ("annotations", v)] := by
    intro v
    have h2 : ("name" == "annotations") = false := by decide
    have h3 : ("resourceVersion" == "annotations") = false := by decide
    have h4 : ("annotations" == "annotations") = true := by decide
    simp only [memberPut, List.map_cons, List.map_nil, h2, h3, h4, if_true,
      Bool.false_eq_true, if_false]
  rw [metadataJson, removeAt_step, hget]
  simp only [removeAt_testing]
  cases mapGet m "testing" with
  | none => rfl
  | some v => simp only [hput, metadataJson]

/-- The program's patch applied to the stored document of a pod whose
annotation map is `m`: it fails when `m` has no key "testing", and otherwise
yields the document of the pod with that key erased. -/
theorem applyPatch_patch (p : Pod) (m : StringMap) (hm : p.annotations = some m) :
    applyPatch patch p.toJson =
      match mapGet m "testing" with
      | none => none
      | some _ => some ({ p with annotations := some (mapErase m "testing") } : Pod).toJson := by
  have htok : pathTokens "/metadata/annotations/testing" =
      some ["metadata", "annotations", "testing"] := by decide
  have h1 : ("metadata" == "metadata") = true := by decide
  have h5 : ("spec" == "metadata") = false := by decide
  have h6 : ("status" == "metadata") = false := by decide
  rw [toJson_of_annotations p m hm,
    toJson_of_annotations { p with annotations := some (mapErase m "testing") }
      (mapErase m "testing") rfl]
  simp only [applyPatch, decodePatch_patch, applyOps, applyOp, htok, if_true]
  rw [removeAt_step]
  simp only [memberGet, List.find?_cons, h1, Option.map, removeAt_annotations]
  cases mapGet m "testing" with
  | none => rfl
  | some v =>
    simp only [memberPut, List.map_cons, List.map_nil, h1, h5, h6, if_true,
      Bool.false_eq_true, if_false, metadataJson]

/-! ## The claim about the patch -/

/-- C8: the patch document of the program reads as a list of exactly one
operation, a remove at path /metadata/annotations/testing; applied to the
stored document of an instance whose annotations have key "testing" it yields
the document of the same instance with the annotations changed only by that
key being erased, every other key keeping its value; applied once more, to
that result, it fails and so yields no changed document. -/
theorem patch_removes_only_testing (p : Pod) (m : StringMap) (hm : p.annotations = some m)
    (hkey : mapGet m "testing" ≠ none) :
    decodePatch patch =
      some [{ op := "remove", path := "/metadata/annotations/testing", value := none }] ∧
    applyPatch patch p.toJson =
      some ({ p with annotations := some (mapErase m "testing") } : Pod).toJson ∧
    mapGet (mapErase m "testing") "testing" = none ∧
    (∀ k, k ≠ "testing" → mapGet (mapErase m "testing") k = mapGet m k) ∧
    applyPatch patch ({ p with annotations := some (mapErase m "testing") } : Pod).toJson =
      none := by
  refine ⟨decodePatch_patch, ?_, mapGet_mapErase_same m "testing",
    fun k hk => mapGet_mapErase_other m "testing" k hk, ?_⟩
  · rw [applyPatch_patch p m hm]
    cases hk : mapGet m "testing" with
    | none => exact absurd hk hkey
    | some v => rfl
  · rw [applyPatch_patch _ (mapErase m "testing") rfl, mapGet_mapErase_same]

/-- C8, at the pod the update step submits: annotations "testing" and one other
key. -/
theorem patch_removes_only_testing_witness :
    decodePatch patch =
      some [{ op := "remove", path := "/metadata/annotations/testing", value := none }] ∧
    applyPatch patch
        ({ readyPod with annotations := some [("testing", "true"), ("owner", "me")] } : Pod).toJson =
      some ({ ({ readyPod with annotations := some [("testing", "true"), ("owner", "me")] } : Pod)
        with annotations := some (mapErase [("testing", "true"), ("owner", "me")] "testing") }
        : Pod).toJson ∧
    mapGet (mapErase [("testing", "true"), ("owner", "me")] "testing") "testing" = none ∧
    (∀ k, k ≠ "testing" →
      mapGet (mapErase [("testing", "true"), ("owner", "me")] "testing") k =
        mapGet [("testing", "true"), ("owner", "me")] k) ∧
    applyPatch patch
        ({ ({ readyPod with annotations := some [("testing", "true"), ("owner", "me")] } : Pod)
          with annotations := some (mapErase [("testing", "true"), ("owner", "me")] "testing") }
          : Pod).toJson = none :=
  patch_removes_only_testing
    { readyPod with annotations := some [("testing", "true"), ("owner", "me")] }
    [("testing", "true"), ("owner", "me")] rfl (by decide)

/-! ## The retry after a conflict, and the workflow end to end -/

/-- In the update step a Get that comes after another call is addressed to the
name of the pod that call returned. -/
theorem retry_get_name (st : Store) (steps : Nat) (pod : Pod) (calls : List Call) :
    ∃ added,
      (RetryOnConflict steps (updateAttempt st)
        { pod := pod, calls := calls, gets := 0, updates := 0 }).2.calls = calls ++ added ∧
      (∀ c l, added = c :: l → ∃ res, c = Call.get pod.name res) ∧
      ∀ l1 c1 n res l2, added = l1 ++ c1 :: Call.get n res :: l2 →
        c1.returned.map Pod.name = some n := by
  obtain ⟨added, hcalls, htr, _, _⟩ := update_step_trace st steps pod calls
  refine ⟨added, hcalls, ?_, ?_⟩
  · intro c l heq
    rw [heq] at htr
    exact traced_first pod.name c l htr
  · intro l1 c1 n res l2 heq
    rw [heq] at htr
    exact (traced_adjacent pod.name l1 l2 c1 (Call.get n res) none htr).2

/-- The workflow in the end-to-end scenario, with the names its calls are
addressed to: the first Get to the name of the watched pod, the second Get to
the name of the pod the failed Update returned, Patch to the name of the pod
the second Update returned, both Deletes to the name of the pod Patch
returned. -/
theorem workflow_end_to_end (st : Store) (steps : Nat) (pre : List Event) (e : Event)
    (e0 e2 : APIError) (hsteps : 2 ≤ steps)
    (hcreate : st.create.2 = none) (hwatch : st.watch = (pre ++ [e], none))
    (hpre : ∀ x ∈ pre, x.type = Modified ∧ hasReady x.object = false)
    (hty : e.type = Modified) (hready : hasReady e.object = true)
    (hget0 : (st.get 0 e.object.name).2 = none) (hupd0 : (st.update 0).2 = some e0)
    (hconf : IsConflict e0 = true)
    (hget1 : (st.get 1 (st.update 0).1.name).2 = none) (hupd1 : (st.update 1).2 = none)
    (hpatch : st.patch.2 = none) (hdel0 : st.delete 0 = none)
    (hdel1 : st.delete 1 = some e2) (hnf : IsNotFound e2 = true) :
    (workflow st steps).outcome = .completed ∧
    (workflow st steps).calls.map Call.op =
      [.create, .watch, .get, .update, .get, .update, .patch, .delete, .delete] ∧
    (workflow st steps).calls.filterMap Call.target =
      [e.object.name, (st.update 0).1.name, (st.update 1).1.name, st.patch.1.name,
        st.patch.1.name] := by
  obtain ⟨k, rfl⟩ : ∃ k, steps = k + 2 := ⟨steps - 2, by omega⟩
  have hw1 : st.watch.1 = pre ++ [e] := by rw [hwatch]
  have hw2 : st.watch.2 = none := by rw [hwatch]
  have _ := hready
  have hmod : ∀ x ∈ pre ++ [e], x.type = Modified := by
    intro x hx
    rcases List.mem_append.1 hx with hx | hx
    · exact (hpre x hx).1
    · rw [List.mem_singleton.1 hx]; exact hty
  have hloop := watchLoop_all_modified (pre ++ [e]) Watcher.fresh st.create.1 0 hmod
  have hout : (watchLoop st.watch.1 Watcher.fresh st.create.1 0).outcome = .completed := by
    rw [hw1, hloop]
  have hpod : (watchLoop st.watch.1 Watcher.fresh st.create.1 0).pod = e.object := by
    rw [hw1, hloop]
    exact lastObject_append_one _ _ _
  have hretry : RetryOnConflict (k + 2) (updateAttempt st)
      { pod := e.object, calls := openingCalls st, gets := 0, updates := 0 } =
      (none, afterUpdate st (afterUpdate st
        { pod := e.object, calls := openingCalls st, gets := 0, updates := 0 })) := by
    simp [RetryOnConflict, retryLoop, updateAttempt_eq, afterUpdate, hget0, hupd0, hconf, hget1,
      hupd1]
  rw [workflow_of_loop_done st _ hcreate hw2 hout, hpod,
    updateThenRest_of_success st _ _ _ (by rw [hretry]), hretry,
    patchThenDelete_of_success st _ _ hpatch]
  simp [deleteTwice, hdel0, hdel1, hnf, afterUpdate, openingCalls, Call.op, Call.target]

/-- C9 fails on the code: at a store whose first Update fails with a conflict
and returns the zero pod next to the error, the Get of the second attempt is
addressed to the empty name, not to "hello-openshift", and the workflow panics
with the error of that Get. -/
theorem retry_get_after_conflict_uses_returned_pod :
    (workflow conflictStore 5).calls.map Call.op = [.create, .watch, .get, .update, .get] ∧
    (workflow conflictStore 5).calls.filterMap Call.target = ["hello-openshift", ""] ∧
    (workflow conflictStore 5).outcome = .panicked (.err (some emptyNameErr)) := by
  decide

/-- C7 fails on the code: the store of the end-to-end scenario answers every
Get addressed to the created name with success, the first Update with a
conflict and a second Update with success, Patch and the first Delete with
success and the second Delete with not-found; yet the workflow does not
complete: after Create, Watch, Get, Update it issues the Get of the retry
addressed to the empty name, which is refused, and panics with that error,
without a second Update, a Patch or a Delete. -/
theorem end_to_end_aborts_after_injected_conflict :
    (∀ k, (endToEndStore.get k "hello-openshift").2 = none) ∧
    endToEndStore.create.1.name = "hello-openshift" ∧
    endToEndStore.create.2 = none ∧
    (endToEndStore.update 0).2 = some conflictErr ∧ IsConflict conflictErr = true ∧
    (endToEndStore.update 1).2 = none ∧ endToEndStore.patch.2 = none ∧
    endToEndStore.delete 0 = none ∧
    endToEndStore.delete 1 = some notFoundErr ∧ IsNotFound notFoundErr = true ∧
    (workflow endToEndStore 5).outcome = .panicked (.err (some emptyNameErr)) ∧
    (workflow endToEndStore 5).calls.map Call.op = [.create, .watch, .get, .update, .get] ∧
    (workflow endToEndStore 5).calls.filterMap Call.target = ["hello-openshift", ""] := by
  refine ⟨fun k => rfl, ?_⟩
  decide

end CrudExample
